import Mathlib

/-!
Shallow embedding of the donzo task-list server (Rust, axum + rusqlite).

The embedding models the parts of the program the verified claims are about:

* `src/middleware.rs`: the `Auth` and `SessionAuth` extractors, cookie
  parsing, bearer-token parsing, and the `AppError → AuthError`
  conversion together with the HTTP status each rejection maps to.
* `src/db.rs`: the session, API-token and todo store operations.  The SQLite
  database is modelled as lists of rows in insertion (rowid) order; `SELECT ...
  ORDER BY position ASC` over a table scan is modelled as a stable sort
  (`List.insertionSort`) by position over the rows in table order; row lookups
  by primary key are `List.find?`; `last_insert_rowid` is modelled by the
  `nextTodoId`/`nextTokenId` counters.
* `src/handlers/api.rs` and `src/handlers/auth.rs`: the handler-level
  validation (empty-title rejection) and the session-only gate on the token
  management endpoints.

Store lookups in the middleware are passed as functions
`String → Except AppError (Option _)` so that both the ordinary database
lookups and a failing store (a storage error) can be plugged in, exactly as
the Rust code receives a `&DbPool` whose queries return `Result`.
All timestamps are `Int` seconds (the Rust code uses `i64` Unix seconds).
-/

namespace Donezo

/-- Row of the `sessions` table (`src/models.rs`). -/
structure Session where
  id : String
  created_at : Int
  expires_at : Int
deriving DecidableEq

/-- Row of the `api_tokens` table (`src/models.rs`). -/
structure ApiToken where
  id : Int
  token : String
  name : Option String
  created_at : Int
deriving DecidableEq

/-- Row of the `todos` table (`src/models.rs`). -/
structure Todo where
  id : Int
  title : String
  completed : Bool
  position : Int
  created_at : Int
  updated_at : Int
deriving DecidableEq

/-- The SQLite database: one list of rows per table, kept in rowid
(insertion) order, plus the next fresh rowid for the two tables with
integer surrogate keys. -/
structure Db where
  sessions : List Session
  api_tokens : List ApiToken
  todos : List Todo
  nextTokenId : Int
  nextTodoId : Int
deriving DecidableEq

/-- The error taxonomy of `src/error.rs`. -/
inductive AppError where
  | Database : String → AppError
  | Unauthorized : AppError
  | NotFound : AppError
  | BadRequest : String → AppError
deriving DecidableEq

/-- Extractor rejections, `src/middleware.rs` lines 105-108. -/
inductive AuthError where
  | Unauthorized : AuthError
  | Internal : String → AuthError
deriving DecidableEq

/-- The conversion from `AppError` to `AuthError` (the `From` impl in
`src/middleware.rs` lines 127-136). -/
def authErrorOfAppError : AppError → AuthError
  | .Database msg => .Internal msg
  | .Unauthorized => .Unauthorized
  | .NotFound => .Internal "Not found"
  | .BadRequest msg => .Internal msg

/-- HTTP status assigned to each rejection by the `IntoResponse`
implementation in `src/middleware.rs` lines 110-125. -/
def statusOfAuthError : AuthError → Nat
  | .Unauthorized => 401
  | .Internal _ => 500

instance {ε α : Type} [DecidableEq ε] [DecidableEq α] :
    DecidableEq (Except ε α) := fun x y =>
  match x, y with
  | .ok a, .ok b =>
    if h : a = b then isTrue (by rw [h])
    else isFalse fun he => h (by cases he; rfl)
  | .error e, .error f =>
    if h : e = f then isTrue (by rw [h])
    else isFalse fun he => h (by cases he; rfl)
  | .ok _, .error _ => isFalse fun he => by cases he
  | .error _, .ok _ => isFalse fun he => by cases he

/-- Model of Rust `str::trim`: drop whitespace characters from both ends
(the Rust version uses the full Unicode White_Space class; the embedding
uses `Char.isWhitespace`, which agrees on ASCII input). -/
def strTrim (s : String) : String :=
  String.mk (((s.toList.dropWhile Char.isWhitespace).reverse.dropWhile
    Char.isWhitespace).reverse)

/-- Model of Rust `str::split(sep)` for a one-character separator: `""`
splits to `[""]`, and every separator occurrence starts a new piece. -/
def splitOnChar (sep : Char) : List Char → List (List Char)
  | [] => [[]]
  | c :: cs =>
    if c = sep then [] :: splitOnChar sep cs
    else
      match splitOnChar sep cs with
      | [] => [[c]]
      | h :: t => (c :: h) :: t

/-- Model of Rust `str::splitn(2, sep)` followed by taking both pieces:
split a character list at the first occurrence of the separator; `none`
when the separator does not occur (the Rust iterator then yields a single
piece and the second `next()` is `None`, so the cookie pair is dropped).
The first argument accumulates the reversed prefix scanned so far. -/
def splitPairAux (sep : Char) : List Char → List Char → Option (String × String)
  | _, [] => none
  | acc, c :: cs =>
    if c = sep then some (String.mk acc.reverse, String.mk cs)
    else splitPairAux sep (c :: acc) cs

/-- Parse one `;`-separated cookie fragment, as in `check_session`
(`src/middleware.rs` lines 73-76): trim the fragment, then split at the
first `=`; fragments without `=` are dropped. -/
def parseCookiePair (s : String) : Option (String × String) :=
  splitPairAux '=' [] (strTrim s).toList

/-- Cookie extraction of `check_session` (`src/middleware.rs` lines 66-76):
every `cookie` header value is split on `;` and each fragment parsed into a
name/value pair; unparsable fragments are skipped. -/
def parseCookies (cookieHeaders : List String) : List (String × String) :=
  cookieHeaders.flatMap fun h =>
    ((splitOnChar ';' h.toList).map String.mk).filterMap parseCookiePair

/-- Model of `str::strip_prefix` applied to the literal prefix characters:
`dropLiteral pre cs` removes `pre` from the front of `cs`, or `none`. -/
def dropLiteral : List Char → List Char → Option (List Char)
  | [], cs => some cs
  | _ :: _, [] => none
  | p :: ps, c :: cs => if c = p then dropLiteral ps cs else none

/-- The `auth_str.strip_prefix("Bearer ")` step of `check_bearer_token`
(`src/middleware.rs` line 97). -/
def stripBearer (s : String) : Option String :=
  (dropLiteral "Bearer ".toList s.toList).map String.mk

/-- Per-cookie session check, the body of the loop in `check_session`
(`src/middleware.rs` lines 78-90): look the cookie value up in the session
store; any lookup error or missing row is treated as not valid
(`if let Ok(Some(session))`), and a found session is valid only when
`session.expires_at > now`. -/
def sessionCookieOk (getSess : String → Except AppError (Option Session))
    (value : String) (now : Int) : Bool :=
  match getSess value with
  | .ok (some s) => decide (now < s.expires_at)
  | _ => false

/-- The function `check_session` of `src/middleware.rs` lines 66-92. -/
def check_session (cookieHeaders : List String)
    (getSess : String → Except AppError (Option Session)) (now : Int) : Bool :=
  (parseCookies cookieHeaders).any fun p =>
    decide (p.1 = "session") && sessionCookieOk getSess p.2 now

/-- The function `check_bearer_token` of `src/middleware.rs` lines 94-103:
no header or a header without the exact `Bearer ` prefix yields `ok false`;
otherwise the token is looked up and a lookup error propagates. -/
def check_bearer_token (authHeader : Option String)
    (getTok : String → Except AppError (Option ApiToken)) :
    Except AppError Bool :=
  match authHeader with
  | none => .ok false
  | some h =>
    match stripBearer h with
    | none => .ok false
    | some tok => (getTok tok).map Option.isSome

/-- The `Auth` extractor, `src/middleware.rs` lines 20-38: session first,
then bearer; a bearer-path store error propagates through the
`AppError`-to-`AuthError` conversion; otherwise failure is
`Unauthorized`. -/
def auth_from_request (cookieHeaders : List String) (authHeader : Option String)
    (getSess : String → Except AppError (Option Session))
    (getTok : String → Except AppError (Option ApiToken)) (now : Int) :
    Except AuthError Unit :=
  if check_session cookieHeaders getSess now then .ok ()
  else
    match check_bearer_token authHeader getTok with
    | .error e => .error (authErrorOfAppError e)
    | .ok true => .ok ()
    | .ok false => .error .Unauthorized

/-- The `SessionAuth` extractor, `src/middleware.rs` lines 40-53: only the
session-cookie check is consulted. -/
def session_auth_from_request (cookieHeaders : List String)
    (getSess : String → Except AppError (Option Session)) (now : Int) :
    Except AuthError Unit :=
  if check_session cookieHeaders getSess now then .ok ()
  else .error .Unauthorized

/-- Session fetch by primary key, `get_session` of `src/db.rs` lines 68-82
(`SELECT ... FROM sessions WHERE id = ?1`, first row). -/
def get_session (db : Db) (id : String) : Except AppError (Option Session) :=
  .ok (db.sessions.find? fun s => decide (s.id = id))

/-- The startup sweep `cleanup_expired_sessions` of `src/db.rs` lines 90-98
(`DELETE FROM sessions WHERE expires_at < now`). -/
def cleanup_expired_sessions (db : Db) (now : Int) : Db :=
  { db with sessions := db.sessions.filter fun s => !decide (s.expires_at < now) }

/-- Token insertion, `create_api_token` of `src/db.rs` lines 101-125. -/
def create_api_token (db : Db) (token : String) (name : Option String)
    (now : Int) : Db × ApiToken :=
  let row : ApiToken :=
    { id := db.nextTokenId, token := token, name := name, created_at := now }
  ({ db with api_tokens := db.api_tokens ++ [row],
             nextTokenId := db.nextTokenId + 1 }, row)

/-- Token lookup by value, `get_api_token_by_value` of `src/db.rs`
lines 127-143 (`SELECT ... WHERE token = ?1`, first row). -/
def get_api_token_by_value (db : Db) (token : String) :
    Except AppError (Option ApiToken) :=
  .ok (db.api_tokens.find? fun t => decide (t.token = token))

/-- Ordering used by `list_api_tokens` (`ORDER BY created_at DESC`). -/
abbrev createdDesc : ApiToken → ApiToken → Prop := fun a b =>
  b.created_at ≤ a.created_at

/-- Token listing, `list_api_tokens` of `src/db.rs` lines 145-160. -/
def list_api_tokens (db : Db) : List ApiToken :=
  List.insertionSort createdDesc db.api_tokens

/-- Token deletion, `delete_api_token` of `src/db.rs` lines 162-166; the
`Bool` is `rows > 0`. -/
def delete_api_token (db : Db) (id : Int) : Db × Bool :=
  ({ db with api_tokens := db.api_tokens.filter fun t => !decide (t.id = id) },
   db.api_tokens.any fun t => decide (t.id = id))

/-- The `SELECT COALESCE(MAX(position), 0) FROM todos` step of `create_todo`
(`src/db.rs` lines 172-177): `0` for an empty table, otherwise the maximum
stored position. -/
def maxPosition : List Todo → Int
  | [] => 0
  | t :: ts => ts.foldl (fun m u => max m u.position) t.position

/-- Todo insertion, `create_todo` of `src/db.rs` lines 169-200: position is
the max-or-zero plus one, `completed` defaults to false, both timestamps
default to now, and the freshly inserted row is returned. -/
def create_todo (db : Db) (title : String) (now : Int) : Db × Todo :=
  let row : Todo :=
    { id := db.nextTodoId, title := title, completed := false,
      position := maxPosition db.todos + 1, created_at := now, updated_at := now }
  ({ db with todos := db.todos ++ [row], nextTodoId := db.nextTodoId + 1 }, row)

/-- Ordering used by the todo listings (`ORDER BY position ASC`). -/
abbrev posLe : Todo → Todo → Prop := fun a b => a.position ≤ b.position

instance : IsTotal Todo posLe := ⟨fun a b => Int.le_total a.position b.position⟩

instance : IsTrans Todo posLe := ⟨fun _ _ _ h₁ h₂ => le_trans h₁ h₂⟩

/-- Todo listing, `list_todos` of `src/db.rs` lines 202-220: the table rows
ordered by ascending position; ties between equal positions keep table
(rowid) order, i.e. a stable sort of the row list. -/
def list_todos (db : Db) : List Todo :=
  List.insertionSort posLe db.todos

/-- Partial update, `update_todo` of `src/db.rs` lines 243-276: with both
fields absent no `UPDATE` runs and the current row is just re-read;
otherwise the supplied fields and `updated_at` are set on every row whose
id matches, and the row is re-read. -/
def update_todo (db : Db) (id : Int) (title : Option String)
    (completed : Option Bool) (now : Int) : Db × Option Todo :=
  match title, completed with
  | none, none => (db, db.todos.find? fun t => decide (t.id = id))
  | _, _ =>
    let todos := db.todos.map fun t =>
      if t.id = id then
        { t with title := title.getD t.title,
                 completed := completed.getD t.completed, updated_at := now }
      else t
    ({ db with todos := todos }, todos.find? fun t => decide (t.id = id))

/-- The loop of `reorder_todos` (`src/db.rs` lines 278-289): one `UPDATE`
per supplied id, the running index `k` coming from `enumerate()`. -/
def applyReorder (now : Int) : List Int → Nat → List Todo → List Todo
  | [], _, todos => todos
  | id :: rest, k, todos =>
    applyReorder now rest (k + 1)
      (todos.map fun t =>
        if t.id = id then { t with position := (k : Int), updated_at := now }
        else t)

/-- The function `reorder_todos` of `src/db.rs` lines 278-289. -/
def reorder_todos (db : Db) (ids : List Int) (now : Int) : Db :=
  { db with todos := applyReorder now ids 0 db.todos }

/-- Todo deletion, `delete_todo` of `src/db.rs` lines 311-315. -/
def delete_todo (db : Db) (id : Int) : Db × Bool :=
  ({ db with todos := db.todos.filter fun t => !decide (t.id = id) },
   db.todos.any fun t => decide (t.id = id))

/-- Open-task listing, `list_open_todos` of `src/db.rs` lines 317-335
(`WHERE completed = 0 ORDER BY position ASC`). -/
def list_open_todos (db : Db) : List Todo :=
  List.insertionSort posLe (db.todos.filter fun t => !t.completed)

/-- The handler `create_new_todo` of `src/handlers/api.rs` lines 22-34:
an all-whitespace title is rejected with `BadRequest` before the store is
touched; otherwise the raw (untrimmed) title is passed to `create_todo`. -/
def create_new_todo (db : Db) (title : String) (now : Int) :
    Except AppError (Db × Todo) :=
  if strTrim title = "" then .error (.BadRequest "Title cannot be empty")
  else .ok (create_todo db title now)

/-- Mapping of the `update_todo` result to the handler response
(`src/handlers/api.rs` lines 59-65): `none` becomes `NotFound`. -/
def runUpdate (db : Db) (id : Int) (title : Option String)
    (completed : Option Bool) (now : Int) : Except AppError (Db × Todo) :=
  match update_todo db id title completed now with
  | (db', some todo) => .ok (db', todo)
  | (_, none) => .error .NotFound

/-- The handler `update_existing_todo` of `src/handlers/api.rs`
lines 47-66: a supplied all-whitespace title is rejected with `BadRequest`
before the store is touched. -/
def update_existing_todo (db : Db) (id : Int) (title : Option String)
    (completed : Option Bool) (now : Int) : Except AppError (Db × Todo) :=
  match title with
  | some t =>
    if strTrim t = "" then .error (.BadRequest "Title cannot be empty")
    else runUpdate db id title completed now
  | none => runUpdate db id none completed now

/-- The handler `plain_text_todos` of `src/handlers/api.rs` lines 92-104:
the body is the concatenation, over the open todos, of the title formatted
with a trailing newline, i.e. every open title followed by a newline. -/
def plain_text_todos (db : Db) : String :=
  String.join ((list_open_todos db).map fun t => t.title ++ "\n")

/-- Outcome type for the token-management endpoints: either the extractor
rejection (`AuthError`) or a handler error (`AppError`). -/
inductive HandlerError where
  | auth : AuthError → HandlerError
  | app : AppError → HandlerError
deriving DecidableEq

/-- The handler `create_token` of `src/handlers/auth.rs` lines 75-84,
including its `SessionAuth` gate: only a valid session cookie lets the
request through; the generated token value is a parameter here. -/
def create_token (db : Db) (cookieHeaders : List String) (now : Int)
    (tokenValue : String) (name : Option String) :
    Except HandlerError (Db × ApiToken) :=
  match session_auth_from_request cookieHeaders (get_session db) now with
  | .error e => .error (.auth e)
  | .ok _ => .ok (create_api_token db tokenValue name now)

/-- The handler `list_tokens` of `src/handlers/auth.rs` lines 67-73,
including its `SessionAuth` gate. -/
def list_tokens (db : Db) (cookieHeaders : List String) (now : Int) :
    Except HandlerError (List ApiToken) :=
  match session_auth_from_request cookieHeaders (get_session db) now with
  | .error e => .error (.auth e)
  | .ok _ => .ok (list_api_tokens db)

/-- The handler `revoke_token` of `src/handlers/auth.rs` lines 86-97,
including its `SessionAuth` gate; deleting an unknown id is `NotFound`. -/
def revoke_token (db : Db) (cookieHeaders : List String) (now : Int)
    (id : Int) : Except HandlerError Db :=
  match session_auth_from_request cookieHeaders (get_session db) now with
  | .error e => .error (.auth e)
  | .ok _ =>
    match delete_api_token db id with
    | (db', true) => .ok db'
    | (_, false) => .error (.app .NotFound)

/-- Index of the first occurrence of `x` in a list, used to describe the
net effect of the `reorder_todos` loop. -/
def idIndex (x : Int) : List Int → Option Nat
  | [] => none
  | y :: ys => if y = x then some 0 else (idIndex x ys).map (· + 1)

/-- Strict version of the listing order; used to state uniqueness of the
sorted output when positions are distinct. -/
abbrev posLt : Todo → Todo → Prop := fun a b => a.position < b.position

/-- Net per-row effect of the `reorder_todos` loop when the supplied id
sequence has no duplicates: a row whose id occurs at index `i` gets
`position = i` and a refreshed `updated_at`; other rows are untouched. -/
def reorderUpdate (ids : List Int) (now : Int) (t : Todo) : Todo :=
  match idIndex t.id ids with
  | some i => { t with position := (i : Int), updated_at := now }
  | none => t

/-- Fixture: a database with one unexpired session and one stored API
token. -/
def dbAuthW : Db :=
  { sessions := [⟨"sid", 0, 100⟩], api_tokens := [⟨1, "tokval", some "cli", 0⟩],
    todos := [], nextTokenId := 2, nextTodoId := 1 }

/-- Fixture: an empty database. -/
def dbEmpty : Db :=
  { sessions := [], api_tokens := [], todos := [], nextTokenId := 1, nextTodoId := 1 }

/-- Fixture: three todos with ids 1, 2, 3 at positions 1, 2, 3; the one
with id 2 is completed. -/
def dbThree : Db :=
  { sessions := [], api_tokens := [],
    todos := [⟨1, "alpha", false, 1, 0, 0⟩, ⟨2, "beta", true, 2, 0, 0⟩,
              ⟨3, "gamma", false, 3, 0, 0⟩],
    nextTokenId := 1, nextTodoId := 4 }

/-- Fixture: a single open todo with id 1 at position 1. -/
def dbOne : Db :=
  { sessions := [], api_tokens := [], todos := [⟨1, "alpha", false, 1, 0, 0⟩],
    nextTokenId := 1, nextTodoId := 2 }

/-! ## Helper lemmas -/

/-- The starting value is bounded by a fold of `max`. -/
theorem init_le_foldl_max (ts : List Todo) (b : Int) :
    b ≤ ts.foldl (fun m u => max m u.position) b := by
  induction ts generalizing b with
  | nil => simp
  | cons v vs ihv => exact le_trans (le_max_left ..) (ihv _)

/-- Every stored position is bounded by a fold of `max` started anywhere. -/
theorem le_foldl_max_of_mem :
    ∀ (ts : List Todo) (b : Int) (t : Todo), t ∈ ts →
      t.position ≤ ts.foldl (fun m u => max m u.position) b
  | u :: us, b, t, ht => by
    rcases List.mem_cons.mp ht with h | h
    · subst h
      exact le_trans (le_max_right b t.position) (init_le_foldl_max us _)
    · exact le_foldl_max_of_mem us _ t h

/-- Every stored position is at most `maxPosition`. -/
theorem position_le_maxPosition {ts : List Todo} {t : Todo} (ht : t ∈ ts) :
    t.position ≤ maxPosition ts := by
  cases ts with
  | nil => cases ht
  | cons u us =>
    rcases List.mem_cons.mp ht with h | h
    · subst h; exact init_le_foldl_max us _
    · exact le_foldl_max_of_mem us u.position t h

/-- A row that is present is found by a primary-key `find?` when the key
column has no duplicates. -/
theorem find?_of_mem_nodup {db : Db} {s : Session}
    (hids : (db.sessions.map Session.id).Nodup) (hs : s ∈ db.sessions) :
    (db.sessions.find? fun x => decide (x.id = s.id)) = some s := by
  have hsome : (db.sessions.find? fun x => decide (x.id = s.id)).isSome := by
    rw [List.find?_isSome]
    exact ⟨s, hs, by simp⟩
  cases heq : db.sessions.find? fun x => decide (x.id = s.id) with
  | none => rw [heq] at hsome; simp at hsome
  | some x =>
    have hxmem := List.mem_of_find?_eq_some heq
    have hxid : x.id = s.id := by simpa using List.find?_some heq
    have := List.inj_on_of_nodup_map hids hxmem hs hxid
    rw [this]



theorem dropLiteral_eq_some :
    ∀ (ps cs ts : List Char), dropLiteral ps cs = some ts ↔ cs = ps ++ ts := by
  intro ps
  induction ps with
  | nil => intro cs ts; simp [dropLiteral]
  | cons p ps ih =>
    intro cs ts
    cases cs with
    | nil => simp [dropLiteral]
    | cons c cs =>
      simp only [dropLiteral, List.cons_append]
      by_cases h : c = p
      · subst h; simp [ih]
      · simp [h]

theorem stripBearer_eq_some (s tok : String) :
    stripBearer s = some tok ↔ s = "Bearer " ++ tok := by
  unfold stripBearer
  rw [Option.map_eq_some']
  constructor
  · rintro ⟨a, ha, rfl⟩
    have hd := (dropLiteral_eq_some _ _ _).mp ha
    apply String.ext
    rw [String.data_append]
    exact hd
  · intro h
    refine ⟨tok.data, ?_, rfl⟩
    rw [dropLiteral_eq_some]
    show s.data = _
    rw [h, String.data_append]
    rfl

theorem check_bearer_token_pure (db : Db) (authHeader : Option String) :
    check_bearer_token authHeader (get_api_token_by_value db)
      = .ok (match authHeader with
             | none => false
             | some h =>
               match stripBearer h with
               | none => false
               | some tok => (db.api_tokens.find? fun t =>
                   decide (t.token = tok)).isSome) := by
  cases authHeader with
  | none => rfl
  | some h =>
    cases hs : stripBearer h with
    | none => simp [check_bearer_token, hs]
    | some tok => simp [check_bearer_token, hs, get_api_token_by_value, Except.map]

theorem check_bearer_token_iff (db : Db) (authHeader : Option String) :
    check_bearer_token authHeader (get_api_token_by_value db) = .ok true
      ↔ ∃ tok, authHeader = some ("Bearer " ++ tok)
          ∧ ∃ t ∈ db.api_tokens, t.token = tok := by
  constructor
  · intro h
    cases authHeader with
    | none => simp [check_bearer_token] at h
    | some hd =>
      cases hs : stripBearer hd with
      | none => simp [check_bearer_token, hs] at h
      | some tok =>
        simp only [check_bearer_token, hs, get_api_token_by_value,
          Except.map, Except.ok.injEq] at h
        refine ⟨tok, by rw [(stripBearer_eq_some hd tok).mp hs], ?_⟩
        rw [List.find?_isSome] at h
        obtain ⟨t, ht, htok⟩ := h
        exact ⟨t, ht, by simpa using htok⟩
  · rintro ⟨tok, rfl, t, ht, htok⟩
    have hs : stripBearer ("Bearer " ++ tok) = some tok :=
      (stripBearer_eq_some _ _).mpr rfl
    simp only [check_bearer_token, hs, get_api_token_by_value,
      Except.map, Except.ok.injEq]
    rw [List.find?_isSome]
    exact ⟨t, ht, by simpa using htok⟩

theorem sessionCookieOk_iff (db : Db) (v : String) (now : Int)
    (hids : (db.sessions.map Session.id).Nodup) :
    sessionCookieOk (get_session db) v now = true
      ↔ ∃ s ∈ db.sessions, s.id = v ∧ now < s.expires_at := by
  constructor
  · intro h
    unfold sessionCookieOk get_session at h
    cases hf : db.sessions.find? fun x => decide (x.id = v) with
    | none => rw [hf] at h; simp at h
    | some s =>
      rw [hf] at h
      simp only [decide_eq_true_eq] at h
      exact ⟨s, List.mem_of_find?_eq_some hf,
        by simpa using List.find?_some hf, h⟩
  · rintro ⟨s, hm, rfl, hlt⟩
    unfold sessionCookieOk get_session
    rw [find?_of_mem_nodup hids hm]
    simpa using hlt

theorem check_session_iff (db : Db) (cookieHeaders : List String) (now : Int)
    (hids : (db.sessions.map Session.id).Nodup) :
    check_session cookieHeaders (get_session db) now = true
      ↔ ∃ p ∈ parseCookies cookieHeaders, p.1 = "session"
          ∧ ∃ s ∈ db.sessions, s.id = p.2 ∧ now < s.expires_at := by
  unfold check_session
  rw [List.any_eq_true]
  constructor
  · rintro ⟨p, hp, hok⟩
    rw [Bool.and_eq_true, decide_eq_true_eq] at hok
    exact ⟨p, hp, hok.1, (sessionCookieOk_iff db p.2 now hids).mp hok.2⟩
  · rintro ⟨p, hp, hname, hsess⟩
    refine ⟨p, hp, ?_⟩
    rw [Bool.and_eq_true, decide_eq_true_eq]
    exact ⟨hname, (sessionCookieOk_iff db p.2 now hids).mpr hsess⟩

theorem check_session_err_false (cookieHeaders : List String) (now : Int)
    (msg : String) :
    check_session cookieHeaders (fun _ => .error (.Database msg)) now
      = false := by
  rw [← Bool.not_eq_true, check_session, List.any_eq_true]
  rintro ⟨p, hp, hok⟩
  simp [sessionCookieOk] at hok

theorem update_some_title_todos (db : Db) (id : Int) (s : String)
    (completed : Option Bool) (now : Int) :
    (update_todo db id (some s) completed now).1.todos
      = db.todos.map fun t =>
          if t.id = id then
            { t with title := s, completed := completed.getD t.completed,
                     updated_at := now }
          else t := by
  cases completed <;> rfl


/-! ### Reorder and stable-sort helper lemmas -/


theorem idIndex_eq_none {x : Int} : ∀ {ids : List Int},
    idIndex x ids = none ↔ x ∉ ids := by
  intro ids
  induction ids with
  | nil => simp [idIndex]
  | cons y ys ih =>
    by_cases h : y = x
    · simp [idIndex, h]
    · simp only [idIndex, h, if_false, Option.map_eq_none', ih,
        List.mem_cons]
      constructor
      · intro hx
        rintro (rfl | hmem)
        · exact h rfl
        · exact hx hmem
      · intro hx hmem
        exact hx (Or.inr hmem)

theorem idIndex_some_getElem : ∀ {ids : List Int} {x : Int} {i : Nat},
    idIndex x ids = some i → ∃ h : i < ids.length, ids.get ⟨i, h⟩ = x := by
  intro ids
  induction ids with
  | nil => intro x i h; simp [idIndex] at h
  | cons y ys ih =>
    intro x i h
    by_cases hy : y = x
    · simp only [idIndex, hy, if_true, Option.some.injEq] at h
      subst h
      exact ⟨by simp, hy⟩
    · simp only [idIndex, hy, if_false, Option.map_eq_some'] at h
      obtain ⟨j, hj, rfl⟩ := h
      obtain ⟨hlt, hget⟩ := ih hj
      exact ⟨by simpa using hlt, by simpa using hget⟩

theorem idIndex_getElem_of_nodup : ∀ {ids : List Int}, ids.Nodup →
    ∀ {i : Nat} (h : i < ids.length), idIndex (ids.get ⟨i, h⟩) ids = some i := by
  intro ids
  induction ids with
  | nil => intro _ i h; simp at h
  | cons y ys ih =>
    intro hnd i h
    rw [List.nodup_cons] at hnd
    cases i with
    | zero => simp [idIndex]
    | succ j =>
      have hj : j < ys.length := by simpa using h
      have hne : y ≠ ys.get ⟨j, hj⟩ := by
        intro he
        exact hnd.1 (he ▸ List.get_mem ys j hj)
      show idIndex (ys.get ⟨j, hj⟩) (y :: ys) = some (j + 1)
      simp only [idIndex, hne, if_false, ih hnd.2 hj, Option.map_some']

/-- The update applied to one row for one supplied id. -/
theorem applyReorder_map_id (now : Int) :
    ∀ (ids : List Int) (k : Nat) (todos : List Todo),
      (applyReorder now ids k todos).map (fun t => t.id)
        = todos.map fun t => t.id
  | [], _, todos => rfl
  | id :: rest, k, todos => by
    rw [applyReorder, applyReorder_map_id now rest (k + 1), List.map_map]
    apply List.map_congr_left
    intro t _
    by_cases h : t.id = id <;> simp [h]

theorem applyReorder_append (now : Int) :
    ∀ (l₁ l₂ : List Int) (k : Nat) (todos : List Todo),
      applyReorder now (l₁ ++ l₂) k todos
        = applyReorder now l₂ (k + l₁.length) (applyReorder now l₁ k todos)
  | [], l₂, k, todos => by simp [applyReorder]
  | id :: rest, l₂, k, todos => by
    rw [List.cons_append, applyReorder, applyReorder,
      applyReorder_append now rest l₂ (k + 1)]
    congr 1
    simp
    omega

theorem applyReorder_eq_map (now : Int) :
    ∀ (ids : List Int), ids.Nodup →
      ∀ (k : Nat) (todos : List Todo),
        applyReorder now ids k todos
          = todos.map fun t =>
              match idIndex t.id ids with
              | some i => { t with position := ((k + i : Nat) : Int),
                                   updated_at := now }
              | none => t
  | [], _, k, todos => by
    simp [applyReorder, idIndex]
  | id :: rest, hnd, k, todos => by
    rw [List.nodup_cons] at hnd
    rw [applyReorder, applyReorder_eq_map now rest hnd.2 (k + 1), List.map_map]
    apply List.map_congr_left
    intro t _
    by_cases h : t.id = id
    · have hidx : idIndex id rest = none := by
        rw [idIndex_eq_none]
        exact hnd.1
      simp only [Function.comp_apply, h, if_true, hidx]
      simp [idIndex]
    · have hcond : ¬ (id = t.id) := fun he => h he.symm
      simp only [Function.comp_apply, if_neg h]
      cases hix : idIndex t.id rest with
      | none =>
        simp only [idIndex, if_neg hcond, hix, Option.map_none']
      | some i =>
        simp only [idIndex, if_neg hcond, hix, Option.map_some']
        have harith : k + 1 + i = k + (i + 1) := by omega
        rw [harith]

theorem filter_orderedInsert_neg {α : Type} (r : α → α → Prop)
    [DecidableRel r] (p : α → Bool) (a : α) (hpa : p a = false) :
    ∀ l : List α, (List.orderedInsert r a l).filter p = l.filter p
  | [] => by simp [List.orderedInsert, hpa]
  | b :: l => by
    rw [List.orderedInsert]
    by_cases h : r a b
    · simp [h, hpa]
    · have hrec := filter_orderedInsert_neg r p a hpa l
      cases hpb : p b <;> simp [h, hpb, hrec]

theorem filter_orderedInsert_pos {α : Type} (r : α → α → Prop)
    [DecidableRel r] [IsTrans α r] (p : α → Bool) (a : α) (hpa : p a = true) :
    ∀ l : List α, l.Sorted r →
      (List.orderedInsert r a l).filter p
        = List.orderedInsert r a (l.filter p)
  | [], _ => by simp [List.orderedInsert, hpa]
  | b :: l, hl => by
    rw [List.orderedInsert]
    by_cases h : r a b
    · cases hpb : p b
      · have hall : ∀ c ∈ l.filter p, r a c := by
          intro c hc
          exact IsTrans.trans a b c h
            (List.rel_of_sorted_cons hl c (List.mem_of_mem_filter hc))
        cases hfl : l.filter p with
        | nil => simp [h, hpa, hpb, hfl, List.orderedInsert]
        | cons c cs =>
          have hac : r a c := hall c (by rw [hfl]; exact List.mem_cons_self c cs)
          rw [if_pos h]
          have hbl : List.filter p (b :: l) = c :: cs := by
            simp [List.filter_cons, hpb, hfl]
          rw [hbl, List.orderedInsert_of_le r cs hac]
          simp [hpa, hpb, hfl]
      · simp [h, hpa, hpb, List.orderedInsert]
    · have hrec := filter_orderedInsert_pos r p a hpa l
        (List.sorted_cons.mp hl).2
      cases hpb : p b
      · simp [h, hpb, hrec]
      · simp [h, hpb, hrec, List.orderedInsert]

theorem filter_insertionSort {α : Type} (r : α → α → Prop)
    [DecidableRel r] [IsTotal α r] [IsTrans α r] (p : α → Bool) :
    ∀ l : List α,
      (List.insertionSort r l).filter p = List.insertionSort r (l.filter p)
  | [] => rfl
  | a :: l => by
    rw [List.insertionSort]
    cases hpa : p a
    · rw [filter_orderedInsert_neg r p a hpa _,
        filter_insertionSort r p l]
      simp [hpa]
    · rw [filter_orderedInsert_pos r p a hpa _
        (List.sorted_insertionSort r l), filter_insertionSort r p l]
      simp [hpa, List.insertionSort]

theorem reorderUpdate_id (ids : List Int) (now : Int) (t : Todo) :
    (reorderUpdate ids now t).id = t.id := by
  cases h : idIndex t.id ids <;> simp [reorderUpdate, h]

theorem reorder_todos_eq_map (db : Db) (ids : List Int) (now : Int)
    (hnd : ids.Nodup) :
    (reorder_todos db ids now).todos = db.todos.map (reorderUpdate ids now) := by
  show applyReorder now ids 0 db.todos = _
  rw [applyReorder_eq_map now ids hnd 0 db.todos]
  apply List.map_congr_left
  intro t _
  cases h : idIndex t.id ids <;> simp [reorderUpdate, h]

theorem reorder_todos_map_id (db : Db) (ids : List Int) (now : Int) :
    (reorder_todos db ids now).todos.map (fun t => t.id)
      = db.todos.map fun t => t.id := by
  show (applyReorder now ids 0 db.todos).map _ = _
  exact applyReorder_map_id now ids 0 db.todos

theorem reorder_included_order (db : Db) (ids : List Int) (now : Int)
    (hN : ids.Nodup) (hT : (db.todos.map fun t => t.id).Nodup)
    (hP : ∀ x ∈ ids, ∃ t ∈ db.todos, t.id = x) :
    ((list_todos (reorder_todos db ids now)).filter fun t =>
        decide (t.id ∈ ids)).map (fun t => t.id) = ids := by
  have hmap := reorder_todos_eq_map db ids now hN
  rw [show list_todos (reorder_todos db ids now)
      = List.insertionSort posLe (reorder_todos db ids now).todos from rfl]
  rw [filter_insertionSort posLe (fun t => decide (t.id ∈ ids)) _]
  set rows := (reorder_todos db ids now).todos.filter
    (fun t => decide (t.id ∈ ids)) with hrows
  set S := List.insertionSort posLe rows with hSdef
  have hrow_mem : ∀ t ∈ rows, ∃ i, ∃ h : i < ids.length,
      ids.get ⟨i, h⟩ = t.id ∧ t.position = (i : Int) := by
    intro t ht
    rw [hrows, hmap, List.mem_filter] at ht
    obtain ⟨tm, hin⟩ := ht
    obtain ⟨u, _, rfl⟩ := List.mem_map.mp tm
    rw [decide_eq_true_eq, reorderUpdate_id] at hin
    cases hix : idIndex u.id ids with
    | none => exact absurd hin (idIndex_eq_none.mp hix)
    | some i =>
      obtain ⟨hlt, hget⟩ := idIndex_some_getElem hix
      refine ⟨i, hlt, by rw [hget, reorderUpdate_id], ?_⟩
      simp [reorderUpdate, hix]
  have hrows_id_nodup : (rows.map fun t => t.id).Nodup := by
    have hsub : (rows.map fun t => t.id).Sublist
        ((reorder_todos db ids now).todos.map fun t => t.id) :=
      (List.filter_sublist _).map _
    rw [reorder_todos_map_id] at hsub
    exact hsub.nodup hT
  have hperm_ids : (rows.map fun t => t.id).Perm ids := by
    rw [List.perm_ext_iff_of_nodup hrows_id_nodup hN]
    intro x
    constructor
    · intro hx
      obtain ⟨t, ht, rfl⟩ := List.mem_map.mp hx
      rw [hrows, List.mem_filter] at ht
      exact of_decide_eq_true ht.2
    · intro hx
      obtain ⟨t, ht, rfl⟩ := hP x hx
      refine List.mem_map.mpr ⟨reorderUpdate ids now t, ?_, reorderUpdate_id ..⟩
      rw [hrows, List.mem_filter, hmap]
      refine ⟨List.mem_map.mpr ⟨t, ht, rfl⟩, ?_⟩
      rw [decide_eq_true_eq, reorderUpdate_id]
      exact hx
  have hlen_rows : rows.length = ids.length := by
    rw [← List.length_map rows (fun t => t.id)]
    exact hperm_ids.length_eq
  have hSperm : S.Perm rows := List.perm_insertionSort posLe rows
  have hS_sorted : S.Sorted posLe := List.sorted_insertionSort posLe rows
  have hS_mem : ∀ t ∈ S, ∃ i, ∃ h : i < ids.length,
      ids.get ⟨i, h⟩ = t.id ∧ t.position = (i : Int) := fun t ht =>
    hrow_mem t (hSperm.mem_iff.mp ht)
  have hg : ∀ t ∈ rows, t.position
      = (((idIndex t.id ids).getD 0 : Nat) : Int) := by
    intro t ht
    obtain ⟨i, hlt, hget, hpos⟩ := hrow_mem t ht
    have : idIndex t.id ids = some i := by
      rw [← hget]
      exact idIndex_getElem_of_nodup hN hlt
    rw [this, hpos, Option.getD_some]
  have hpos_perm : (S.map fun t => t.position).Perm
      ((List.range ids.length).map fun n : Nat => (n : Int)) := by
    have h1 : (S.map fun t => t.position).Perm
        (rows.map fun t => t.position) := hSperm.map _
    have h2 : rows.map (fun t => t.position)
        = (rows.map fun t => t.id).map
            fun x => (((idIndex x ids).getD 0 : Nat) : Int) := by
      rw [List.map_map]
      exact List.map_congr_left hg
    have h3 : (((rows.map fun t => t.id).map
        fun x => (((idIndex x ids).getD 0 : Nat) : Int))).Perm
          (ids.map fun x => (((idIndex x ids).getD 0 : Nat) : Int)) :=
      hperm_ids.map _
    have h4 : ids.map (fun x => (((idIndex x ids).getD 0 : Nat) : Int))
        = (List.range ids.length).map fun n : Nat => (n : Int) := by
      apply List.ext_getElem
      · rw [List.length_map, List.length_map, List.length_range]
      · intro n hn1 hn2
        rw [List.getElem_map, List.getElem_map, List.getElem_range]
        have hlt : n < ids.length := by rw [List.length_map] at hn1; exact hn1
        have hidx := idIndex_getElem_of_nodup hN hlt
        rw [List.get_eq_getElem] at hidx
        rw [hidx, Option.getD_some]
    rw [h2] at h1
    rw [h4] at h3
    exact h1.trans h3
  have hpos_eq : S.map (fun t => t.position)
      = (List.range ids.length).map fun n : Nat => (n : Int) := by
    have hs1 : (S.map fun t => t.position).Sorted (fun a b : Int => a ≤ b) :=
      hS_sorted.map _ (fun a b h => h)
    have hs2 : ((List.range ids.length).map
        fun n : Nat => (n : Int)).Sorted (fun a b : Int => a ≤ b) :=
      (List.sorted_lt_range ids.length).map _
        (fun a b h => by exact_mod_cast Nat.le_of_lt h)
    haveI : IsAntisymm Int (fun a b : Int => a ≤ b) :=
      ⟨fun a b h1 h2 => le_antisymm h1 h2⟩
    exact List.eq_of_perm_of_sorted hpos_perm hs1 hs2
  apply List.ext_getElem
  · rw [List.length_map, hSdef, List.length_insertionSort, hlen_rows]
  · intro n h1 h2
    rw [List.getElem_map]
    have hnS : n < S.length := by
      rw [hSdef, List.length_insertionSort, hlen_rows]
      simpa using h2
    obtain ⟨i, hlt, hget, hpos⟩ := hS_mem S[n] (List.getElem_mem hnS)
    have hposn : S[n].position = (n : Int) := by
      have hm1 : n < (S.map fun t => t.position).length := by
        rw [List.length_map]
        exact hnS
      have hm2 : n < ((List.range ids.length).map
          fun m : Nat => (m : Int)).length := by
        rw [List.length_map, List.length_range]
        exact h2
      have hx : (S.map fun t => t.position)[n] = S[n].position := by
        rw [List.getElem_map]
      have hy : ((List.range ids.length).map
          fun m : Nat => (m : Int))[n] = (n : Int) := by
        rw [List.getElem_map, List.getElem_range]
      have h5 : (S.map fun t => t.position)[n]?
          = ((List.range ids.length).map fun m : Nat => (m : Int))[n]? := by
        rw [hpos_eq]
      rw [List.getElem?_eq_getElem hm1, List.getElem?_eq_getElem hm2,
        hx, hy, Option.some.injEq] at h5
      exact h5
    have hin : (i : Int) = (n : Int) := by rw [← hpos, hposn]
    have hieq : i = n := by exact_mod_cast hin
    subst hieq
    rw [← hget, List.get_eq_getElem]

/-! ## Claim theorems -/

/-- C4: a stored session is accepted by the validation used in
`check_session` exactly when `expires_at > now`, so `expires_at <= now` is
treated as absent; the read path still returns the (possibly expired) row —
it deletes nothing — and the separate sweep `cleanup_expired_sessions`
retains exactly the rows with `expires_at >= now`, i.e. removes exactly
those with `expires_at < now`. -/
theorem c4_session_validation_and_sweep (db : Db) (s : Session) (now : Int)
    (hids : (db.sessions.map Session.id).Nodup) (hs : s ∈ db.sessions) :
    get_session db s.id = .ok (some s)
    ∧ (sessionCookieOk (get_session db) s.id now = true ↔ now < s.expires_at)
    ∧ (∀ x, x ∈ (cleanup_expired_sessions db now).sessions
        ↔ x ∈ db.sessions ∧ now ≤ x.expires_at) := by
  have hfind := find?_of_mem_nodup hids hs
  refine ⟨by simp [get_session, hfind], ?_, ?_⟩
  · simp [sessionCookieOk, get_session, hfind]
  · intro x
    simp [cleanup_expired_sessions, List.mem_filter, Int.not_lt]

/-- Witness for C4 at a concrete database: the stored session with
`expires_at = 100` validates at `now = 5`. -/
theorem c4_witness : sessionCookieOk (get_session dbAuthW) "sid" 5 = true :=
  (c4_session_validation_and_sweep dbAuthW ⟨"sid", 0, 100⟩ 5 (by decide)
    (by decide)).2.1.mpr (by decide)

/-- C5: `create_todo` assigns `position = maxPosition + 1`, the new
position strictly exceeds every existing one, and on an empty table the
max-or-zero rule yields position 1. -/
theorem c5_create_position (db : Db) (title : String) (now : Int) :
    (create_todo db title now).2.position = maxPosition db.todos + 1
    ∧ (∀ t ∈ db.todos, t.position < (create_todo db title now).2.position)
    ∧ (db.todos = [] → (create_todo db title now).2.position = 1) := by
  refine ⟨rfl, ?_, ?_⟩
  · intro t ht
    have h := position_le_maxPosition ht
    have : (create_todo db title now).2.position = maxPosition db.todos + 1 := rfl
    omega
  · intro h
    simp [create_todo, h, maxPosition]

/-- Witness for C5 at a concrete database: the highest stored position, 3,
is strictly below the position of a freshly created task. -/
theorem c5_witness :
    (⟨3, "gamma", false, 3, 0, 0⟩ : Todo).position
      < (create_todo dbThree "delta" 9).2.position :=
  (c5_create_position dbThree "delta" 9).2.1 ⟨3, "gamma", false, 3, 0, 0⟩
    (by decide)

/-- C7: `update_todo` with both fields absent is a no-op that re-reads the
row; with only `completed` supplied, every surviving row keeps its id,
title, position and creation time, the matching row gets the new completed
flag and a refreshed `updated_at`, and unmatched rows are untouched; and
the result is `none` exactly when no row with the given id exists. -/
theorem c7_update_semantics (db : Db) (id : Int) (now : Int) :
    ((update_todo db id none none now).1 = db
      ∧ (update_todo db id none none now).2
          = db.todos.find? fun t => decide (t.id = id))
    ∧ (∀ c : Bool, ∀ t' ∈ (update_todo db id none (some c) now).1.todos,
        ∃ t ∈ db.todos, t'.id = t.id ∧ t'.title = t.title
          ∧ t'.position = t.position ∧ t'.created_at = t.created_at
          ∧ (t.id = id → t'.completed = c ∧ t'.updated_at = now)
          ∧ (t.id ≠ id → t' = t))
    ∧ (∀ (title : Option String) (completed : Option Bool),
        ((update_todo db id title completed now).2 = none
          ↔ ¬ ∃ t ∈ db.todos, t.id = id)) := by
  refine ⟨⟨rfl, rfl⟩, ?_, ?_⟩
  · intro c t' ht'
    simp only [update_todo, List.mem_map] at ht'
    obtain ⟨t, ht, rfl⟩ := ht'
    by_cases h : t.id = id
    · exact ⟨t, ht, by simp [h]⟩
    · exact ⟨t, ht, by simp [h]⟩
  · have key : ∀ (f : Todo → Todo), (∀ t, (f t).id = t.id) →
        (((db.todos.map f).find? fun t => decide (t.id = id)) = none
          ↔ ¬ ∃ t ∈ db.todos, t.id = id) := by
      intro f hf
      simp only [List.find?_eq_none, List.mem_map, decide_eq_true_eq]
      constructor
      · rintro h ⟨t, ht, hidt⟩
        exact h (f t) ⟨t, ht, rfl⟩ (by rw [hf]; exact hidt)
      · rintro h x ⟨t, ht, rfl⟩ hx
        exact h ⟨t, ht, by rw [hf] at hx; exact hx⟩
    have hpres : ∀ (s : Option String) (c : Option Bool) (t : Todo),
        ((if t.id = id then
          { t with title := s.getD t.title, completed := c.getD t.completed,
                   updated_at := now } else t) : Todo).id = t.id := by
      intro s c t; by_cases h : t.id = id <;> simp [h]
    intro title completed
    cases title with
    | none => cases completed with
      | none =>
        simp only [update_todo, List.find?_eq_none, decide_eq_true_eq]
        constructor
        · rintro h ⟨t, ht, hidt⟩; exact h t ht hidt
        · rintro h t ht hidt; exact h ⟨t, ht, hidt⟩
      | some c => exact key _ (hpres none (some c))
    | some s => cases completed with
      | none => exact key _ (hpres (some s) none)
      | some c => exact key _ (hpres (some s) (some c))

/-- Witness for C7 at a concrete database: the no-op update leaves the
database untouched. -/
theorem c7_witness : (update_todo dbOne 1 none none 9).1 = dbOne :=
  (c7_update_semantics dbOne 1 9).1.1

/-- C1: the full-auth decision grants access iff some cookie literally
named `session` holds the id of a stored session with `expires_at > now`,
or the `Authorization` header is exactly `Bearer <token>` for a token value
present in the `api_tokens` store (with the session check first); with the
ordinary database stores, any other outcome is the `Unauthorized`
rejection. -/
theorem c1_full_auth (db : Db) (cookieHeaders : List String)
    (authHeader : Option String) (now : Int)
    (hids : (db.sessions.map Session.id).Nodup) :
    (auth_from_request cookieHeaders authHeader (get_session db)
        (get_api_token_by_value db) now = .ok ()
      ↔ (∃ p ∈ parseCookies cookieHeaders, p.1 = "session"
            ∧ ∃ s ∈ db.sessions, s.id = p.2 ∧ now < s.expires_at)
        ∨ (∃ tok, authHeader = some ("Bearer " ++ tok)
            ∧ ∃ t ∈ db.api_tokens, t.token = tok))
    ∧ (auth_from_request cookieHeaders authHeader (get_session db)
          (get_api_token_by_value db) now ≠ .ok ()
        → auth_from_request cookieHeaders authHeader (get_session db)
            (get_api_token_by_value db) now = .error .Unauthorized) := by
  have hsess := check_session_iff db cookieHeaders now hids
  have hbear := check_bearer_token_iff db authHeader
  by_cases hcs : check_session cookieHeaders (get_session db) now
  · have hres : auth_from_request cookieHeaders authHeader (get_session db)
        (get_api_token_by_value db) now = .ok () := by
      simp [auth_from_request, hcs]
    constructor
    · rw [hres]
      exact iff_of_true rfl (Or.inl (hsess.mp hcs))
    · intro hne
      rw [hres] at hne
      exact absurd rfl hne
  · rw [Bool.not_eq_true] at hcs
    obtain ⟨b, hb⟩ : ∃ b, check_bearer_token authHeader
        (get_api_token_by_value db) = .ok b :=
      ⟨_, check_bearer_token_pure db authHeader⟩
    have hres : auth_from_request cookieHeaders authHeader (get_session db)
        (get_api_token_by_value db) now
          = (if b then .ok () else .error .Unauthorized) := by
      cases b <;> simp [auth_from_request, hcs, hb]
    cases b with
    | true =>
      constructor
      · rw [hres]
        exact iff_of_true (by simp) (Or.inr (hbear.mp hb))
      · intro hne
        rw [hres] at hne
        simp at hne
    | false =>
      constructor
      · rw [hres]
        apply iff_of_false (by simp)
        rintro (hl | hr)
        · rw [← hsess, hcs] at hl
          cases hl
        · rw [← hbear, hb] at hr
          simp at hr
      · intro _
        rw [hres]
        simp

/-- C2: the `SessionAuth` gate succeeds iff a valid, unexpired session
cookie is presented; in its absence, the create/list/revoke token
endpoints all reject with `Unauthorized`, whatever bearer tokens exist in
the store — the endpoints never consult the `Authorization` header at
all. -/
theorem c2_session_only_token_management (db : Db)
    (cookieHeaders : List String) (now : Int)
    (hids : (db.sessions.map Session.id).Nodup) :
    (session_auth_from_request cookieHeaders (get_session db) now = .ok ()
      ↔ ∃ p ∈ parseCookies cookieHeaders, p.1 = "session"
          ∧ ∃ s ∈ db.sessions, s.id = p.2 ∧ now < s.expires_at)
    ∧ ((¬ ∃ p ∈ parseCookies cookieHeaders, p.1 = "session"
          ∧ ∃ s ∈ db.sessions, s.id = p.2 ∧ now < s.expires_at) →
        ∀ (tokenValue : String) (name : Option String) (id : Int),
          create_token db cookieHeaders now tokenValue name
              = .error (.auth .Unauthorized)
            ∧ list_tokens db cookieHeaders now = .error (.auth .Unauthorized)
            ∧ revoke_token db cookieHeaders now id
              = .error (.auth .Unauthorized)) := by
  have hsess := check_session_iff db cookieHeaders now hids
  constructor
  · by_cases hcs : check_session cookieHeaders (get_session db) now
    · have : session_auth_from_request cookieHeaders (get_session db) now
          = .ok () := by simp [session_auth_from_request, hcs]
      rw [this]
      exact iff_of_true rfl (hsess.mp hcs)
    · have : session_auth_from_request cookieHeaders (get_session db) now
          = .error .Unauthorized := by simp [session_auth_from_request, hcs]
      rw [this]
      apply iff_of_false (by simp)
      intro hx
      exact hcs (hsess.mpr hx)
  · intro hno tokenValue name id
    have hcs : check_session cookieHeaders (get_session db) now = false := by
      rw [← Bool.not_eq_true]
      intro hx
      exact hno (hsess.mp hx)
    have hgate : session_auth_from_request cookieHeaders (get_session db) now
        = .error .Unauthorized := by simp [session_auth_from_request, hcs]
    exact ⟨by simp [create_token, hgate], by simp [list_tokens, hgate],
      by simp [revoke_token, hgate]⟩

/-- C3: with no valid session cookie, a bearer-path storage failure
surfaces as the internal-error rejection (HTTP 500), while an absent or
malformed `Authorization` header, or a token value not in the store,
yields the plain `Unauthorized` rejection (HTTP 401); the two rejections
are distinct. -/
theorem c3_bearer_error_vs_unauthorized (cookieHeaders : List String)
    (now : Int) (msg : String) (db : Db)
    (getSess : String → Except AppError (Option Session))
    (hns : check_session cookieHeaders getSess now = false) :
    (∀ tok : String,
        auth_from_request cookieHeaders (some ("Bearer " ++ tok)) getSess
          (fun _ => .error (.Database msg)) now = .error (.Internal msg))
    ∧ statusOfAuthError (.Internal msg) = 500
    ∧ auth_from_request cookieHeaders none getSess
        (get_api_token_by_value db) now = .error .Unauthorized
    ∧ (∀ h : String, stripBearer h = none →
        auth_from_request cookieHeaders (some h) getSess
          (get_api_token_by_value db) now = .error .Unauthorized)
    ∧ (∀ tok : String, (¬ ∃ t ∈ db.api_tokens, t.token = tok) →
        auth_from_request cookieHeaders (some ("Bearer " ++ tok)) getSess
          (get_api_token_by_value db) now = .error .Unauthorized)
    ∧ statusOfAuthError .Unauthorized = 401
    ∧ (∀ m : String, AuthError.Internal m ≠ .Unauthorized) := by
  refine ⟨?_, rfl, ?_, ?_, ?_, rfl, fun m h => by cases h⟩
  · intro tok
    have hs : stripBearer ("Bearer " ++ tok) = some tok :=
      (stripBearer_eq_some _ _).mpr rfl
    simp [auth_from_request, hns, check_bearer_token, hs, Except.map,
      authErrorOfAppError]
  · simp [auth_from_request, hns, check_bearer_token]
  · intro h hsnone
    simp [auth_from_request, hns, check_bearer_token, hsnone]
  · intro tok hnot
    have hs : stripBearer ("Bearer " ++ tok) = some tok :=
      (stripBearer_eq_some _ _).mpr rfl
    have hfind : (db.api_tokens.find? fun t => decide (t.token = tok)) = none := by
      rw [List.find?_eq_none]
      intro t ht
      simp only [decide_eq_true_eq]
      exact fun hx => hnot ⟨t, ht, hx⟩
    simp [auth_from_request, hns, check_bearer_token, hs,
      get_api_token_by_value, Except.map, hfind]

/-- C10 (implicit): a session-store lookup failure during `check_session`
is silently treated as no valid session — the decision falls through to
the bearer check (success if a stored bearer token is presented) or to
`Unauthorized`, never to an internal error, asymmetrically with the bearer
path. -/
theorem c10_session_error_swallowed (cookieHeaders : List String) (now : Int)
    (msg : String) (db : Db) :
    check_session cookieHeaders (fun _ => .error (.Database msg)) now = false
    ∧ auth_from_request cookieHeaders none
        (fun _ => .error (.Database msg))
        (get_api_token_by_value db) now = .error .Unauthorized
    ∧ (∀ tok : String, (∃ t ∈ db.api_tokens, t.token = tok) →
        auth_from_request cookieHeaders (some ("Bearer " ++ tok))
          (fun _ => .error (.Database msg))
          (get_api_token_by_value db) now = .ok ()) := by
  have herr := check_session_err_false cookieHeaders now msg
  refine ⟨herr, by simp [auth_from_request, herr, check_bearer_token], ?_⟩
  rintro tok ⟨t, ht, htok⟩
  have hs : stripBearer ("Bearer " ++ tok) = some tok :=
    (stripBearer_eq_some _ _).mpr rfl
  have hsome : (db.api_tokens.find? fun u => decide (u.token = tok)).isSome := by
    rw [List.find?_isSome]
    exact ⟨t, ht, by simpa using htok⟩
  cases hf : db.api_tokens.find? fun u => decide (u.token = tok) with
  | none => rw [hf] at hsome; simp at hsome
  | some u =>
    simp [auth_from_request, herr, check_bearer_token, hs,
      get_api_token_by_value, Except.map, hf]

/-- Witness for C1 at a concrete database: a valid session cookie alone
grants access. -/
theorem c1_witness :
    auth_from_request ["session=sid"] none (get_session dbAuthW)
      (get_api_token_by_value dbAuthW) 5 = .ok () :=
  (c1_full_auth dbAuthW ["session=sid"] none 5 (by decide)).1.mpr
    (Or.inl (by decide))

/-- Witness for C2 at a concrete database: without a session cookie, token
creation is rejected even though a bearer token exists in the store. -/
theorem c2_witness :
    create_token dbAuthW [] 0 "newtok" none = .error (.auth .Unauthorized) :=
  ((c2_session_only_token_management dbAuthW [] 0 (by decide)).2 (by decide)
    "newtok" none 0).1

/-- Witness for C3 at a concrete input: a failing token store turns a
bearer request into an internal-error rejection. -/
theorem c3_witness :
    auth_from_request [] (some ("Bearer " ++ "x")) (get_session dbEmpty)
      (fun _ => .error (.Database "disk full")) 0
      = .error (.Internal "disk full") :=
  (c3_bearer_error_vs_unauthorized [] 0 "disk full" dbEmpty
    (get_session dbEmpty) (by decide)).1 "x"

/-- Witness for C10 at a concrete input: with a failing session store, a
stored bearer token still authenticates. -/
theorem c10_witness :
    auth_from_request ["session=sid"] (some ("Bearer " ++ "tokval"))
      (fun _ => .error (.Database "boom"))
      (get_api_token_by_value dbAuthW) 5 = .ok () :=
  (c10_session_error_swallowed ["session=sid"] 5 "boom" dbAuthW).2.2 "tokval"
    (by decide)


/-- C8, counterexample to the claim as stated: `create_new_todo` accepts
the title `" x "` (its trim is non-empty) but persists the raw string with
its surrounding whitespace, so the stored title is not a trimmed string. -/
theorem c8_counterexample :
    ((create_new_todo dbEmpty " x " 0).toOption.map fun r => r.2.title)
        = some " x "
    ∧ ¬ strTrim " x " = " x " := by decide

/-- C8 (amended): create and update reject an all-whitespace title at the
handler level before reaching the store, so every stored title stays
non-empty after trimming; but the persisted (and returned) title is the raw
submitted string, which may carry leading or trailing whitespace. -/
theorem c8_title_validation (db : Db) (title : String) (now : Int) :
    (create_new_todo db title now = .error (.BadRequest "Title cannot be empty")
        ↔ strTrim title = "")
    ∧ (∀ db' todo, create_new_todo db title now = .ok (db', todo) →
        todo.title = title
        ∧ ((∀ t ∈ db.todos, strTrim t.title ≠ "") →
            ∀ t ∈ db'.todos, strTrim t.title ≠ ""))
    ∧ (∀ (id : Int) (completed : Option Bool) db' todo,
        update_existing_todo db id (some title) completed now = .ok (db', todo) →
        strTrim title ≠ ""
        ∧ ((∀ t ∈ db.todos, strTrim t.title ≠ "") →
            ∀ t ∈ db'.todos, strTrim t.title ≠ ""))
    ∧ (∀ (id : Int) (completed : Option Bool) db' todo,
        update_existing_todo db id none completed now = .ok (db', todo) →
        ((∀ t ∈ db.todos, strTrim t.title ≠ "") →
            ∀ t ∈ db'.todos, strTrim t.title ≠ "")) := by
  refine ⟨?_, ?_, ?_, ?_⟩
  · by_cases h : strTrim title = "" <;> simp [create_new_todo, h]
  · intro db' todo hok
    by_cases h : strTrim title = ""
    · simp [create_new_todo, h] at hok
    · simp only [create_new_todo, h, if_false, Except.ok.injEq] at hok
      have hdb : db' = (create_todo db title now).1 := by rw [hok]
      have htodo : todo = (create_todo db title now).2 := by rw [hok]
      subst hdb htodo
      refine ⟨rfl, ?_⟩
      intro hinv t ht
      simp only [create_todo, List.mem_append, List.mem_singleton] at ht
      rcases ht with ht | rfl
      · exact hinv t ht
      · exact h
  · intro id completed db' todo hok
    by_cases h : strTrim title = ""
    · simp [update_existing_todo, h] at hok
    · refine ⟨h, ?_⟩
      intro hinv t ht
      have htodos : db'.todos = db.todos.map fun u =>
          if u.id = id then
            { u with title := title, completed := completed.getD u.completed,
                     updated_at := now }
          else u := by
        have hu := update_some_title_todos db id title completed now
        simp only [update_existing_todo, h, if_false, runUpdate] at hok
        cases hres : update_todo db id (some title) completed now with
        | mk db₂ r =>
          rw [hres] at hok
          cases r with
          | none => simp at hok
          | some u2 =>
            simp only [Except.ok.injEq, Prod.mk.injEq] at hok
            rw [← hok.1, ← hu, hres]
      rw [htodos] at ht
      obtain ⟨u, hu2, rfl⟩ := List.mem_map.mp ht
      by_cases hid : u.id = id
      · simpa [hid] using h
      · simpa [hid] using hinv u hu2
  · intro id completed db' todo hok
    intro hinv t ht
    cases completed with
    | none =>
      simp only [update_existing_todo, runUpdate, update_todo] at hok
      cases hf : db.todos.find? fun u => decide (u.id = id) with
      | none => rw [hf] at hok; simp at hok
      | some u =>
        rw [hf] at hok
        simp only [Except.ok.injEq, Prod.mk.injEq] at hok
        rw [← hok.1] at ht
        exact hinv t ht
    | some c =>
      have htodos : db'.todos = db.todos.map fun u =>
          if u.id = id then { u with completed := c, updated_at := now }
          else u := by
        simp only [update_existing_todo, runUpdate] at hok
        cases hres : update_todo db id none (some c) now with
        | mk db₂ r =>
          rw [hres] at hok
          cases r with
          | none => simp at hok
          | some u2 =>
            simp only [Except.ok.injEq, Prod.mk.injEq] at hok
            have : (update_todo db id none (some c) now).1.todos
                = db.todos.map fun u =>
                  if u.id = id then { u with completed := c, updated_at := now }
                  else u := rfl
            rw [← hok.1, ← this, hres]
      rw [htodos] at ht
      obtain ⟨u, hu2, rfl⟩ := List.mem_map.mp ht
      by_cases hid : u.id = id
      · simpa [hid] using hinv u hu2
      · simpa [hid] using hinv u hu2

/-- Witness for C8 at a concrete input: an all-whitespace title is
rejected with `BadRequest`. -/
theorem c8_witness :
    create_new_todo dbEmpty "  " 0
      = .error (.BadRequest "Title cannot be empty") :=
  (c8_title_validation dbEmpty "  " 0).1.mpr (by decide)

/-- C9, counterexample to the claim as stated: the body is not the titles
joined (intercalated) by newlines — every title, including the last, is
followed by a newline, so for a single open task the body has a trailing
newline. -/
theorem c9_counterexample :
    plain_text_todos dbOne
      ≠ String.intercalate "\n" ((list_open_todos dbOne).map fun t => t.title) := by
  decide

/-- C9 (amended): the plain-text body is the concatenation of
`title ++ "\n"` over exactly the tasks with `completed = false`, in
ascending position order (newline-terminated rather than
newline-separated); completed tasks contribute nothing. -/
theorem c9_plain_text (db : Db) :
    plain_text_todos db
        = String.join ((list_open_todos db).map fun t => t.title ++ "\n")
    ∧ (∀ t, t ∈ list_open_todos db ↔ t ∈ db.todos ∧ t.completed = false)
    ∧ (list_open_todos db).Sorted posLe := by
  refine ⟨rfl, ?_, List.sorted_insertionSort _ _⟩
  intro t
  rw [list_open_todos, List.mem_insertionSort, List.mem_filter]
  simp

/-- Witness for C9 at a concrete database: the open task with id 3 is
listed, and listing membership coincides with being stored and open. -/
theorem c9_witness :
    (⟨3, "gamma", false, 3, 0, 0⟩ : Todo) ∈ list_open_todos dbThree
      ↔ (⟨3, "gamma", false, 3, 0, 0⟩ : Todo) ∈ dbThree.todos
        ∧ (⟨3, "gamma", false, 3, 0, 0⟩ : Todo).completed = false :=
  (c9_plain_text dbThree).2.1 ⟨3, "gamma", false, 3, 0, 0⟩

/-- C6 (amended, for a duplicate-free supplied id sequence): reorder sets
the task whose id sits at index `i` of the sequence to `position = i` with
a refreshed `updated_at`; rows whose id is not in the sequence are left
entirely unchanged; an id matching no row is a no-op affecting zero rows
(the loop runs without any permutation validation and cannot fail); after
a reorder, `list_todos` returns the present ids of the sequence in exactly
the supplied order, and the omitted rows keep their prior relative order
among themselves. -/
theorem c6_reorder_semantics (db : Db) (ids : List Int) (now : Int)
    (hN : ids.Nodup) (hT : (db.todos.map fun t => t.id).Nodup) :
    (∀ (i : Nat) (hi : i < ids.length), ∀ t ∈ (reorder_todos db ids now).todos,
        t.id = ids.get ⟨i, hi⟩ → t.position = (i : Int) ∧ t.updated_at = now)
    ∧ ((reorder_todos db ids now).todos.filter (fun t => !decide (t.id ∈ ids))
        = db.todos.filter fun t => !decide (t.id ∈ ids))
    ∧ (∀ x : Int, (¬ ∃ t ∈ db.todos, t.id = x) →
        (reorder_todos db (ids ++ [x]) now).todos
          = (reorder_todos db ids now).todos)
    ∧ ((∀ x ∈ ids, ∃ t ∈ db.todos, t.id = x) →
        ((list_todos (reorder_todos db ids now)).filter fun t =>
            decide (t.id ∈ ids)).map (fun t => t.id) = ids)
    ∧ ((list_todos (reorder_todos db ids now)).filter
          (fun t => !decide (t.id ∈ ids))
        = (list_todos db).filter fun t => !decide (t.id ∈ ids)) := by
  have hfilters : (reorder_todos db ids now).todos.filter
      (fun t => !decide (t.id ∈ ids))
        = db.todos.filter (fun t => !decide (t.id ∈ ids)) := by
    rw [reorder_todos_eq_map db ids now hN, List.filter_map]
    have hcongr : db.todos.filter
        ((fun t => !decide (t.id ∈ ids)) ∘ reorderUpdate ids now)
          = db.todos.filter fun t => !decide (t.id ∈ ids) := by
      apply List.filter_congr
      intro t _
      simp [Function.comp, reorderUpdate_id]
    rw [hcongr]
    have hid_on : ∀ t ∈ db.todos.filter (fun t => !decide (t.id ∈ ids)),
        reorderUpdate ids now t = t := by
      intro t ht
      have hmem := (List.mem_filter.mp ht).2
      rw [Bool.not_eq_true', decide_eq_false_iff_not] at hmem
      simp [reorderUpdate, idIndex_eq_none.mpr hmem]
    rw [List.map_congr_left hid_on, List.map_id']
  refine ⟨?_, hfilters, ?_, ?_, ?_⟩
  · intro i hi t ht hid
    rw [reorder_todos_eq_map db ids now hN] at ht
    obtain ⟨u, hu, rfl⟩ := List.mem_map.mp ht
    rw [reorderUpdate_id] at hid
    have hix : idIndex u.id ids = some i := by
      rw [hid]
      exact idIndex_getElem_of_nodup hN hi
    constructor <;> simp [reorderUpdate, hix]
  · intro x hx
    show applyReorder now (ids ++ [x]) 0 db.todos
      = applyReorder now ids 0 db.todos
    rw [applyReorder_append now ids [x] 0 db.todos, applyReorder, applyReorder]
    have hids := applyReorder_map_id now ids 0 db.todos
    have hne : ∀ t ∈ applyReorder now ids 0 db.todos,
        (if t.id = x then
          { t with position := ((0 + ids.length : Nat) : Int),
                   updated_at := now }
          else t) = t := by
      intro t ht
      apply if_neg
      intro he
      apply hx
      have hmm : t.id ∈ (applyReorder now ids 0 db.todos).map fun t => t.id :=
        List.mem_map_of_mem _ ht
      rw [hids] at hmm
      obtain ⟨u, hu, hui⟩ := List.mem_map.mp hmm
      exact ⟨u, hu, by rw [hui, he]⟩
    rw [List.map_congr_left hne, List.map_id']
  · intro hP
    exact reorder_included_order db ids now hN hT hP
  · show (List.insertionSort posLe _).filter _
      = (List.insertionSort posLe _).filter _
    rw [filter_insertionSort posLe _ _, filter_insertionSort posLe _ _,
      hfilters]

/-- C6, counterexample to the claim as stated: the claim quantifies over
every supplied id sequence, but for the duplicate sequence `[1, 1]` the
loop's last write wins, so the task named at index 0 ends at position 1,
not 0. -/
theorem c6_counterexample :
    ¬ (∀ (i : Nat) (hi : i < ([1, 1] : List Int).length),
        ∀ t ∈ (reorder_todos dbOne [1, 1] 5).todos,
          t.id = ([1, 1] : List Int).get ⟨i, hi⟩ → t.position = (i : Int)) := by
  decide

/-- Witness for C6 at a concrete database: reordering `[3, 1]` makes the
listing return those ids in exactly that order. -/
theorem c6_witness :
    ((list_todos (reorder_todos dbThree [3, 1] 7)).filter fun t =>
        decide (t.id ∈ ([3, 1] : List Int))).map (fun t => t.id) = [3, 1] :=
  (c6_reorder_semantics dbThree [3, 1] 7 (by decide) (by decide)).2.2.2.1
    (by decide)

end Donezo
